import Mathlib

set_option maxHeartbeats 1000000

/-!
Shallow embedding of the renderer in `src/src/lib.rs` of psobolik/prmd:
a translator from a comrak markdown AST to terminal text with ANSI
attribute sequences.  The CLI front end (`src/src/main.rs`) calls a
two-argument `markdown_to_text(md, plain)`; the library file present in
`src/` exports only the one-argument, styled-only variant, so the
plain-mode toggle is modelled from the spec where marked below.
-/

/-- comrak's `ListType`. -/
inductive ListType where
  | Bullet
  | Ordered
deriving DecidableEq

/-- comrak's `ListDelimType`. -/
inductive ListDelimType where
  | Period
  | Paren
deriving DecidableEq

/-- comrak's `NodeList`, restricted to the fields the renderer reads. -/
structure NodeList where
  list_type : ListType
  start : Nat
  delimiter : ListDelimType
deriving DecidableEq

/-- comrak's `TableAlignment`. -/
inductive TableAlignment where
  | None
  | Left
  | Center
  | Right
deriving DecidableEq

/-- comrak's `NodeTable`, restricted to the fields the renderer reads. -/
structure NodeTable where
  num_columns : Nat
  alignments : List TableAlignment
deriving DecidableEq

/-- comrak's `NodeCodeBlock`, restricted to the fields the renderer reads. -/
structure NodeCodeBlock where
  info : String
  literal : String
deriving DecidableEq

/-- comrak's `NodeHeading`, restricted to the fields the renderer reads. -/
structure NodeHeading where
  level : Nat
deriving DecidableEq

/-- comrak's `NodeHtmlBlock`, restricted to the fields the renderer reads. -/
structure NodeHtmlBlock where
  literal : String
deriving DecidableEq

/-- comrak's `NodeLink` (used for both links and images). -/
structure NodeLink where
  url : String
  title : String
deriving DecidableEq

/-- comrak's `NodeCode`, restricted to the fields the renderer reads. -/
structure NodeCode where
  literal : String
deriving DecidableEq

/-- The comrak `NodeValue` variants the renderer dispatches on.  All
variants the source never names in a match arm other than a catch-all
(DescriptionList, DescriptionItem, DescriptionTerm, DescriptionDetails,
FootnoteDefinition, TaskItem, Superscript, FootnoteReference, Math,
MultilineBlockQuote, Escaped, WikiLink, SpoileredText, EscapedTag) are
collapsed into `Unknown`, which carries the text the source's
document-level dispatch would print for that variant inside its
`🔴 …♦` diagnostic. -/
inductive NodeValue where
  | Document
  | Paragraph
  | Heading (heading : NodeHeading)
  | List (node_list : NodeList)
  | Item (node_list : NodeList)
  | BlockQuote
  | CodeBlock (code_block : NodeCodeBlock)
  | HtmlBlock (html_block : NodeHtmlBlock)
  | ThematicBreak
  | Table (node_table : NodeTable)
  | TableRow (header : Bool)
  | TableCell
  | Emph
  | Strong
  | Underline
  | Strikethrough
  | Code (code : NodeCode)
  | HtmlInline (literal : String)
  | Link (link : NodeLink)
  | Image (image : NodeLink)
  | Text (literal : String)
  | SoftBreak
  | LineBreak
  | Unknown (desc : String)
deriving DecidableEq

/-- A comrak AST node: a `NodeValue` plus the list of children.  The
source borrows nodes through `RefCell`s in an arena; the renderer only
reads them, so a plain immutable tree is a faithful model. -/
inductive Node where
  | mk : NodeValue → List Node → Node

/-- The `value` field of a node. -/
def Node.value : Node → NodeValue
  | .mk v _ => v

/-- The `children()` iterator of a node, as a list. -/
def Node.children : Node → List Node
  | .mk _ cs => cs

/-- Rust `str::len`: the UTF-8 byte length of a string. -/
def rustLen (s : String) : Nat :=
  (s.data.map Char.utf8Size).sum

/-- Rust `" ".repeat n`. -/
def spaces (n : Nat) : String :=
  String.mk (List.replicate n ' ')

/-- Rust `s.repeat n` for a general string. -/
def strRepeat (s : String) : Nat → String
  | 0 => ""
  | n + 1 => s ++ strRepeat s n

/-- Drop one trailing carriage return, as Rust `str::lines` does on each
`\n`-terminated line. -/
def stripCR (cs : List Char) : List Char :=
  match cs.getLast? with
  | some '\r' => cs.dropLast
  | _ => cs

/-- Worker for `rustLines`: `acc` holds the current line reversed. -/
def rustLinesAux : List Char → List Char → List (List Char)
  | acc, [] => if acc.isEmpty then [] else [acc.reverse]
  | acc, c :: rest =>
    if c = '\n' then stripCR acc.reverse :: rustLinesAux [] rest
    else rustLinesAux (c :: acc) rest

/-- Rust `str::lines`: split at `\n`, dropping a final empty piece when
the string ends in `\n`, and stripping a `\r` that immediately precedes
a `\n`. -/
def rustLines (s : String) : List String :=
  (rustLinesAux [] s.data).map String.mk

/-- A rendering of a `NodeValue` used to model Rust's `{:#?}` debug
formatting of a node inside the two `💔 unexpected child …` placeholder
strings.  The exact text of Rust's debug output is not reproduced (it
is irrelevant to every claim); this printer is structurally faithful in
that it mentions the variant and its literal payloads. -/
def valueRepr : NodeValue → String
  | .Document => "Document"
  | .Paragraph => "Paragraph"
  | .Heading h => "Heading(" ++ Nat.repr h.level ++ ")"
  | .List _ => "List"
  | .Item _ => "Item"
  | .BlockQuote => "BlockQuote"
  | .CodeBlock cb => "CodeBlock(" ++ cb.info ++ ", " ++ cb.literal ++ ")"
  | .HtmlBlock hb => "HtmlBlock(" ++ hb.literal ++ ")"
  | .ThematicBreak => "ThematicBreak"
  | .Table _ => "Table"
  | .TableRow b => "TableRow(" ++ (if b then "true" else "false") ++ ")"
  | .TableCell => "TableCell"
  | .Emph => "Emph"
  | .Strong => "Strong"
  | .Underline => "Underline"
  | .Strikethrough => "Strikethrough"
  | .Code c => "Code(" ++ c.literal ++ ")"
  | .HtmlInline s => "HtmlInline(" ++ s ++ ")"
  | .Link l => "Link(" ++ l.url ++ ", " ++ l.title ++ ")"
  | .Image l => "Image(" ++ l.url ++ ", " ++ l.title ++ ")"
  | .Text s => "Text(" ++ s ++ ")"
  | .SoftBreak => "SoftBreak"
  | .LineBreak => "LineBreak"
  | .Unknown d => d

mutual

/-- Model of Rust's `{:#?}` debug formatting of a node (see `valueRepr`). -/
def debugRepr : Node → String
  | .mk v cs => "Node(" ++ valueRepr v ++ ", [" ++ debugReprList cs ++ "])"

/-- `debugRepr` over a list of children. -/
def debugReprList : List Node → String
  | [] => ""
  | c :: rest => debugRepr c ++ " " ++ debugReprList rest

end

mutual

/-- `text_node_to_plain_text` from `src/src/lib.rs` (lines 24–44): the
unstyled inline renderer.  The source's calls to
`node_children_to_plain_text(text_node)` are inlined as
`plainChildrenAux "" cs`; the named wrapper below equals them by `rfl`. -/
def text_node_to_plain_text : Node → String
  | .mk v cs =>
    match v with
    | .Emph | .Strong | .Underline | .Strikethrough | .Paragraph =>
      plainChildrenAux "" cs
    | .SoftBreak => " "
    | .LineBreak => "\n"
    | .Code code => code.literal
    | .HtmlInline html_inline => html_inline
    | .Link link => plainChildrenAux "" cs ++ " [" ++ link.url ++ "]"
    | .Image image => plainChildrenAux "" cs ++ " " ++ image.url
    | .Text text => text
    | _ => "💔 unexpected child in Text node: " ++ debugRepr (.mk v cs)

/-- The fold inside `node_children_to_plain_text`:
`fold(String::new(), |acc, child| format!("{}{}", acc, text_node_to_plain_text(child)))`. -/
def plainChildrenAux : String → List Node → String
  | acc, [] => acc
  | acc, c :: rest => plainChildrenAux (acc ++ text_node_to_plain_text c) rest

end

/-- `node_children_to_plain_text` from `src/src/lib.rs` (lines 19–23). -/
def node_children_to_plain_text (node : Node) : String :=
  plainChildrenAux "" node.children

mutual

/-- `text_node_to_formatted_text` from `src/src/lib.rs` (lines 57–85): the
styled inline renderer.  The source's calls to
`node_children_to_text(text_node, bol, eol)` and
`paragraph_node_to_text(text_node)` are inlined as `fmtChildrenAux …`;
the named wrappers below equal them by `rfl`. -/
def text_node_to_formatted_text : Node → String
  | .mk v cs =>
    match v with
    | .Emph => fmtChildrenAux (some "\x1b[3m") (some "\x1b[0m") "" cs
    | .Strong => fmtChildrenAux (some "\x1b[1m") (some "\x1b[0m") "" cs
    | .Underline => fmtChildrenAux (some "\x1b[4m") (some "\x1b[0m") "" cs
    | .Strikethrough => fmtChildrenAux (some "\x1b[9m") (some "\x1b[0m") "" cs
    | .SoftBreak => " "
    | .Paragraph => fmtChildrenAux none none "" cs ++ "\n"
    | .LineBreak => "\n"
    | .Code code => "\x1b[7m" ++ code.literal ++ "\x1b[0m"
    | .HtmlInline html_inline => html_inline
    | .Link link =>
      fmtChildrenAux (some "\x1b[4m") (some "\x1b[0m") "" cs ++ " [" ++ link.url ++ "]"
    | .Image image =>
      fmtChildrenAux (some "\x1b[1m") (some "\x1b[0m") "" cs
        ++ " [\x1b[4m" ++ image.url ++ "\x1b[0m]"
    | .Text text => text
    | _ => "💔 unexpected child in Text node: " ++ debugRepr (.mk v cs)

/-- The fold inside `node_children_to_text` (lines 45–56).  Note that the
source re-applies `bol` and `eol` on every iteration:
`fold(String::new(), |acc, child| { let text = format!("{}{}", acc, text_node_to_formatted_text(child)); format!("{}{}{}", bol, text, eol) })`. -/
def fmtChildrenAux : Option String → Option String → String → List Node → String
  | _, _, acc, [] => acc
  | bol, eol, acc, c :: rest =>
    fmtChildrenAux bol eol
      (bol.getD "" ++ (acc ++ text_node_to_formatted_text c) ++ eol.getD "") rest

end

/-- `node_children_to_text` from `src/src/lib.rs` (lines 45–56). -/
def node_children_to_text (node : Node) (bol eol : Option String) : String :=
  fmtChildrenAux bol eol "" node.children

/-- `paragraph_node_to_text` from `src/src/lib.rs` (lines 116–119). -/
def paragraph_node_to_text (paragraph_node : Node) : String :=
  node_children_to_text paragraph_node none none ++ "\n"

/-- The inlined `paragraph_node_to_text` call inside the styled inline
renderer coincides with the named wrapper. -/
theorem text_node_to_formatted_text_paragraph (cs : List Node) :
    text_node_to_formatted_text (.mk .Paragraph cs)
      = paragraph_node_to_text (.mk .Paragraph cs) := rfl

/-- `thematic_break_node_to_text` from `src/src/lib.rs` (lines 86–88). -/
def thematic_break_node_to_text : String := "¶\n\n"

/-- The fold inside `blockquote_node_to_text` (lines 89–105).  For a
nested `BlockQuote` child the source calls
`blockquote_node_to_text(child, level + 1)` (inlined here, see the
wrapper below); for any other child it computes
`format!("{}{}", lead, node_children_to_text(child, None, None))`,
discarding the accumulator `acc` built so far. -/
def bqChildrenAux (level : Nat) : String → List Node → String
  | acc, [] => acc
  | acc, .mk .BlockQuote ccs :: rest =>
    bqChildrenAux level (acc ++ ("\n" ++ bqChildrenAux (level + 1) "" ccs ++ "\n")) rest
  | _, .mk _ ccs :: rest =>
    bqChildrenAux level
      (strRepeat "│ " (level + 1) ++ fmtChildrenAux none none "" ccs) rest

/-- `blockquote_node_to_text` from `src/src/lib.rs` (lines 89–105). -/
def blockquote_node_to_text (blockquote_node : Node) (level : Nat) : String :=
  "\n" ++ bqChildrenAux level "" blockquote_node.children ++ "\n"

/-- `code_block_node_to_text` from `src/src/lib.rs` (lines 106–111).
The `info` field of the code block is never read. -/
def code_block_node_to_text (code_block : NodeCodeBlock) : String :=
  let lines := (rustLines code_block.literal).foldl
    (fun acc line => acc ++ "\x1b[97m\x1b[48;5;238m" ++ line ++ "\x1b[0K\x1b[0m\n") ""
  lines ++ "\n"

/-- `html_block_node_to_text` from `src/src/lib.rs` (lines 112–115). -/
def html_block_node_to_text (html_block_node : NodeHtmlBlock) : String :=
  html_block_node.literal ++ "\n"

/-- `heading_node_to_text` from `src/src/lib.rs` (lines 120–132). -/
def heading_node_to_text (node : Node) (heading : NodeHeading) : String :=
  let ansi :=
    match heading.level with
    | 1 => "\x1b[1;4m"
    | 2 => "\x1b[1;3m"
    | 3 => "\x1b[3;4m"
    | 4 => "\x1b[3m"
    | _ => "\x1b[4m"
  node_children_to_text node (some ansi) (some "\x1b[0m\n\n")

/-- The `(marker, marker_len)` computation inside `item_node_to_text`
(lines 252–267), factored out verbatim. -/
def item_marker (node_list : NodeList) (level : Nat) : String × Nat :=
  if node_list.list_type = ListType.Bullet then
    ((match level with
      | 0 => "•"
      | 1 => "◦"
      | _ => "▪"), 1)
  else
    (Nat.repr node_list.start
      ++ (match node_list.delimiter with
          | ListDelimType.Period => "."
          | ListDelimType.Paren => ")"), 2)

/-- The `lines().enumerate().fold` inside the `Paragraph` arm of
`item_node_to_text` (lines 270–276): line 0 is
`format!("{}{} {}\n", lead, marker, line)`, every later line is
`format!("{} {}{}\n", lead, lead2, line)`. -/
def itemLinesAux (lead marker lead2 : String) : Nat → String → List String → String
  | _, acc, [] => acc
  | index, acc, line :: rest =>
    let cooked :=
      if index = 0 then lead ++ marker ++ " " ++ line ++ "\n"
      else lead ++ " " ++ lead2 ++ line ++ "\n"
    itemLinesAux lead marker lead2 (index + 1) (acc ++ cooked) rest

/-- The `Paragraph` arm of `item_node_to_text` applied to the rendered
paragraph text: marker selection, indentation and the per-line fold. -/
def itemParagraphText (node_list : NodeList) (level : Nat) (para : String) : String :=
  let m := item_marker node_list level
  let lead := spaces (level * 4)
  let lead2 := spaces (m.2 + 1)
  itemLinesAux lead m.1 lead2 0 "" (rustLines para)

/-- The final `if level == 0` wrap of `list_node_to_text`
(lines 296–300): a top-level list appends one trailing newline to its
items, a nested list does not. -/
def listLevelWrap (level : Nat) (items : String) : String :=
  if level = 0 then items ++ "\n" else items

mutual

/-- The fold inside `list_node_to_text` (lines 284–295).  The source's
recursive call `item_node_to_text(child, level, &item_node_list)` is
inlined (see the wrapper below). -/
def listItemsAux : Nat → String → List Node → String
  | _, acc, [] => acc
  | level, acc, .mk (.Item item_node_list) ccs :: rest =>
    listItemsAux level (acc ++ itemChildrenAux level item_node_list "" ccs) rest
  | level, acc, c :: rest =>
    listItemsAux level (acc ++ "💔 unexpected child in List Node: " ++ debugRepr c) rest

/-- The fold inside `item_node_to_text` (lines 247–282).  A nested
`List` child recurses at `level + 1` through the inlined body of
`list_node_to_text`; a `Paragraph` child is rendered through the
inlined `paragraph_node_to_text` and appended as
`format!("{} {}", acc, text)` — with a space between `acc` and the
item's text. -/
def itemChildrenAux : Nat → NodeList → String → List Node → String
  | _, _, acc, [] => acc
  | level, node_list, acc, .mk (.List _) ccs :: rest =>
    itemChildrenAux level node_list
      (acc ++ listLevelWrap (level + 1) (listItemsAux (level + 1) "" ccs)) rest
  | level, node_list, acc, .mk .Paragraph ccs :: rest =>
    itemChildrenAux level node_list
      (acc ++ " "
        ++ itemParagraphText node_list level (fmtChildrenAux none none "" ccs ++ "\n")) rest
  | level, node_list, acc, c :: rest =>
    itemChildrenAux level node_list
      (acc ++ "💔 unexpected child in List Item Node: " ++ debugRepr c) rest

end

/-- `list_node_to_text` from `src/src/lib.rs` (lines 241–301). -/
def list_node_to_text (list_node : Node) (level : Nat) : String :=
  listLevelWrap level (listItemsAux level "" list_node.children)

/-- `item_node_to_text` from `src/src/lib.rs` (lines 242–283). -/
def item_node_to_text (item_node : Node) (level : Nat) (node_list : NodeList) : String :=
  itemChildrenAux level node_list "" item_node.children

/-- The plain length the width pass takes for one table-row child
(lines 203–206): the byte length of the unstyled cell rendering for a
`TableCell`, `0` for anything else. -/
def cellPlainLen (cell : Node) : Nat :=
  match cell.value with
  | .TableCell => rustLen (node_children_to_plain_text cell)
  | _ => 0

/-- The `row_column_widths` computation inside `table_node_to_text`
(lines 198–210): one list of plain cell widths per table child, an
empty list for a child that is not a `TableRow`. -/
def row_column_widths (table_node : Node) : List (List Nat) :=
  table_node.children.map (fun row =>
    match row.value with
    | .TableRow _ => row.children.map cellPlainLen
    | _ => [])

/-- One step of the `column_widths` fold (lines 211–221):
`for i in 0..num_columns { if row[i] > acc[i] { acc[i] = row[i]; } }`.
The source indexes `row[i]` and `acc[i]` directly and panics when out
of bounds; `getD … 0` totalises that access — claim C10 shows the
accesses stay within bounds under the data-model invariants. -/
def maxFoldRow (num_columns : Nat) (acc row : List Nat) : List Nat :=
  (List.range num_columns).foldl
    (fun a i => if row.getD i 0 > a.getD i 0 then a.set i (row.getD i 0) else a) acc

/-- The `column_widths` fold of `table_node_to_text` (lines 211–221). -/
def column_widths_of (table_node : Node) (num_columns : Nat) : List Nat :=
  (row_column_widths table_node).foldl (maxFoldRow num_columns)
    (List.replicate num_columns 0)

/-- `table_cell_node_to_text` from `src/src/lib.rs` (lines 137–164).
`padding` is computed from the plain (unstyled) byte length of the cell
content; the emitted content is the styled rendering. -/
def table_cell_node_to_text (table_cell_node : Node) (header : Bool)
    (width : Nat) (alignment : TableAlignment) : String :=
  let text := node_children_to_plain_text table_cell_node
  let padding := width - rustLen text
  let p :=
    match alignment with
    | .Center =>
      let left_padding := padding / 2
      let right_padding := padding - left_padding
      (spaces left_padding, spaces right_padding)
    | .Right => (spaces padding, "")
    | .None | .Left => ("", spaces padding)
  if header then
    "\x1b[1;4m" ++ p.1 ++ node_children_to_text table_cell_node none none
      ++ " " ++ p.2 ++ "\x1b[0K\x1b[0m"
  else
    p.1 ++ node_children_to_text table_cell_node none none ++ " " ++ p.2

/-- Rust `{:?}` debug formatting of a `Vec<usize>`, used by the
`println!("column lengths: {:?}", column_widths)` diagnostic. -/
def natListDebug (l : List Nat) : String :=
  "[" ++ String.intercalate ", " (l.map Nat.repr) ++ "]"

/-- The `enumerate().fold` inside `table_row_node_to_text`
(lines 172–195).  The source indexes `column_widths[index]` and
`alignments[index]` directly and panics when out of bounds; `getD`
totalises that access — claim C10 shows the accesses stay within
bounds under the data-model invariants. -/
def rowCellsAux (header : Bool) (column_widths : List Nat)
    (alignments : List TableAlignment) : Nat → String → List Node → String
  | _, acc, [] => acc
  | index, acc, c :: rest =>
    match c.value with
    | .TableCell =>
      rowCellsAux header column_widths alignments (index + 1)
        (acc ++ table_cell_node_to_text c header (column_widths.getD index 0)
          (alignments.getD index .None)) rest
    | _ =>
      rowCellsAux header column_widths alignments (index + 1)
        (acc ++ "💔 unexpected child in Table Row Node: " ++ debugRepr c) rest

/-- `table_row_node_to_text` from `src/src/lib.rs` (lines 165–197).
The function's `println!("column lengths: {:?}", column_widths)` goes
to the side channel; it is returned here as the second component. -/
def table_row_node_to_text (table_row_node : Node) (header : Bool)
    (column_widths : List Nat) (alignments : List TableAlignment) :
    String × List String :=
  (rowCellsAux header column_widths alignments 0 "" table_row_node.children ++ "\n",
   ["column lengths: " ++ natListDebug column_widths])

/-- The row fold of `table_node_to_text` (lines 222–238), threading the
side-channel diagnostics alongside the output string. -/
def tableRowsAux (column_widths : List Nat) (alignments : List TableAlignment) :
    String × List String → List Node → String × List String
  | acc, [] => acc
  | (s, ds), c :: rest =>
    match c.value with
    | .TableRow header =>
      let r := table_row_node_to_text c header column_widths alignments
      tableRowsAux column_widths alignments (s ++ r.1, ds ++ r.2) rest
    | _ =>
      tableRowsAux column_widths alignments
        (s ++ "💔 unexpected child in Table Node: " ++ debugRepr c, ds) rest

/-- `table_node_to_text` from `src/src/lib.rs` (lines 133–240). -/
def table_node_to_text (table_node : Node) (node_table : NodeTable) :
    String × List String :=
  let column_widths := column_widths_of table_node node_table.num_columns
  let r := tableRowsAux column_widths node_table.alignments ("", []) table_node.children
  ("\n" ++ r.1 ++ "\n", r.2)

/-- One child of the document-level dispatch in `document_node_to_text`
(lines 302–419): the rendered text that is appended to
`document_string`, paired with what the arm `println!`s to the side
channel.  The match arms the source gives an explicit `println!` for
are reproduced; Rust's `{:#?}` payload formatting is abbreviated as in
`valueRepr`; the source's final silent `_ => {}` covers `Document` and
`Item`. -/
def docChildStep (child : Node) : String × List String :=
  match child.value with
  | .Paragraph => (paragraph_node_to_text child, [])
  | .List _ => (list_node_to_text child 0, [])
  | .Heading heading => (heading_node_to_text child heading, [])
  | .CodeBlock code_block => (code_block_node_to_text code_block, [])
  | .ThematicBreak => (thematic_break_node_to_text, [])
  | .BlockQuote => (blockquote_node_to_text child 0, [])
  | .HtmlBlock html_block => (html_block_node_to_text html_block, [])
  | .Table node_table => table_node_to_text child node_table
  | .TableRow header =>
    ("", ["🔴 TableRow: " ++ (if header then "true" else "false") ++ "♦"])
  | .TableCell => ("", ["🔴 TableCell♦"])
  | .Text text => ("", ["🔴 Text: " ++ text ++ "♦"])
  | .SoftBreak => ("", ["🔴 SoftBreak♦"])
  | .LineBreak => ("", ["🔴 LineBreak♦"])
  | .Code code => ("", ["🔴 Code: Code(" ++ code.literal ++ ")♦"])
  | .HtmlInline html_inline => ("", ["🔴 HtmlInline: HtmlInline(" ++ html_inline ++ ")♦"])
  | .Emph => ("", ["🔴 Emph♦"])
  | .Strong => ("", ["🔴 Strong♦"])
  | .Strikethrough => ("", ["🔴 Strikethrough♦"])
  | .Link link => ("", ["🔴 Link: Link(" ++ link.url ++ ", " ++ link.title ++ ")♦"])
  | .Image image => ("", ["🔴 Image: Image(" ++ image.url ++ ", " ++ image.title ++ ")♦"])
  | .Underline => ("", ["🔴 Underline♦"])
  | .Unknown d => ("", ["🔴 " ++ d ++ "♦"])
  | _ => ("", [])

/-- The `for_each` over document children in `document_node_to_text`
(lines 302–419), accumulating the output string and the side-channel
diagnostics in document order. -/
def docChildrenAux : List Node → String × List String
  | [] => ("", [])
  | c :: rest =>
    let r := docChildStep c
    let rr := docChildrenAux rest
    (r.1 ++ rr.1, r.2 ++ rr.2)

/-- `document_node_to_text` from `src/src/lib.rs` (lines 302–419):
first component is the returned `document_string`, second is the
side-channel diagnostic stream. -/
def document_node_to_text (document : Node) : String × List String :=
  docChildrenAux document.children

/-- `ast_to_text` from `src/src/lib.rs` (lines 18–421), on an
already-parsed tree (the comrak parser itself is the out-of-scope
collaborator). -/
def ast_to_text (root : Node) : String × List String :=
  document_node_to_text root

/-- Prefix every line of `s` with `lead`, re-terminating each line with
a newline.  Used by the spec-modelled plain blockquote renderer. -/
def leadLines (lead : String) (s : String) : String :=
  (rustLines s).foldl (fun acc line => acc ++ lead ++ line ++ "\n") ""

/-- Modelled from the spec: the plain-mode code block rendering is not
in `src/` (the styled-only `code_block_node_to_text` ignores the mode
and the `info` field).  Spec §4.2: each physical line of `literal` on
its own output line behind a fixed glyph marker, a literal `[info]`
banner line when `info` is non-empty, one blank line after the block. -/
def code_block_node_to_plain_text (code_block : NodeCodeBlock) : String :=
  let banner := if code_block.info = "" then "" else "[" ++ code_block.info ++ "]\n"
  let lines := (rustLines code_block.literal).foldl
    (fun acc line => acc ++ "▌ " ++ line ++ "\n") ""
  banner ++ lines ++ "\n"

/-- Modelled from the spec: the plain-mode table cell.  Same padding
arithmetic as `table_cell_node_to_text`, but the emitted content is the
plain rendering and header cells get no attribute wrapping (spec §4.5,
§4.6: plain mode keeps padding and omits only attribute sequences). -/
def table_cell_node_to_plain_text (table_cell_node : Node) (width : Nat)
    (alignment : TableAlignment) : String :=
  let text := node_children_to_plain_text table_cell_node
  let padding := width - rustLen text
  let p :=
    match alignment with
    | .Center =>
      let left_padding := padding / 2
      let right_padding := padding - left_padding
      (spaces left_padding, spaces right_padding)
    | .Right => (spaces padding, "")
    | .None | .Left => ("", spaces padding)
  p.1 ++ text ++ " " ++ p.2

/-- Modelled from the spec: plain-mode table row (cells at their column
widths, no header styling, newline-terminated). -/
def rowCellsPlainAux (column_widths : List Nat) (alignments : List TableAlignment) :
    Nat → String → List Node → String
  | _, acc, [] => acc
  | index, acc, c :: rest =>
    match c.value with
    | .TableCell =>
      rowCellsPlainAux column_widths alignments (index + 1)
        (acc ++ table_cell_node_to_plain_text c (column_widths.getD index 0)
          (alignments.getD index .None)) rest
    | _ =>
      rowCellsPlainAux column_widths alignments (index + 1)
        (acc ++ "💔 unexpected child in Table Row Node: " ++ debugRepr c) rest

/-- Modelled from the spec: the plain-mode table row fold. -/
def tableRowsPlainAux (column_widths : List Nat) (alignments : List TableAlignment) :
    String → List Node → String
  | acc, [] => acc
  | acc, c :: rest =>
    match c.value with
    | .TableRow _ =>
      tableRowsPlainAux column_widths alignments
        (acc ++ rowCellsPlainAux column_widths alignments 0 "" c.children ++ "\n") rest
    | _ =>
      tableRowsPlainAux column_widths alignments
        (acc ++ "💔 unexpected child in Table Node: " ++ debugRepr c) rest

/-- Modelled from the spec: plain-mode table render — the same
plain-width pass as the source (`column_widths_of`), then the rows with
alignment padding but no styling, a blank line before and after. -/
def table_node_to_plain_text (table_node : Node) (node_table : NodeTable) : String :=
  let column_widths := column_widths_of table_node node_table.num_columns
  "\n" ++ tableRowsPlainAux column_widths node_table.alignments "" table_node.children ++ "\n"

mutual

/-- Modelled from the spec: the plain-mode block dispatch (the
`plain: bool` selector called by `src/src/main.rs` has no implementation
under `src/`).  Spec §4.2–§4.5 and §4.6: the structural layout of the
styled renderer with all attribute sequences omitted; headings are
unwrapped inline text followed by a blank line; an unrecognized node at
block level contributes nothing to the output (its diagnostic goes to
the side channel, which this plain model does not carry). -/
def block_node_to_plain_text : Node → String
  | .mk .Paragraph cs => plainChildrenAux "" cs ++ "\n\n"
  | .mk (.Heading _) cs => plainChildrenAux "" cs ++ "\n\n"
  | .mk (.List _) cs => listItemsPlainAux 0 "" cs ++ "\n"
  | .mk .BlockQuote cs => bqChildrenPlainAux 0 "" cs ++ "\n"
  | .mk (.CodeBlock code_block) _ => code_block_node_to_plain_text code_block
  | .mk (.HtmlBlock html_block) _ => html_block_node_to_text html_block
  | .mk .ThematicBreak _ => thematic_break_node_to_text
  | .mk (.Table node_table) cs =>
    table_node_to_plain_text (.mk (.Table node_table) cs) node_table
  | .mk _ _ => ""

/-- Modelled from the spec: concatenation of plain-rendered blocks in
document order. -/
def blocksPlainAux : String → List Node → String
  | acc, [] => acc
  | acc, c :: rest => blocksPlainAux (acc ++ block_node_to_plain_text c) rest

/-- Modelled from the spec (§4.4): plain-mode blockquote children.
Every output line of a non-blockquote child is prefixed with
`level + 1` copies of the two-character lead glyph; a nested blockquote
recurses at `level + 1` without being prefixed at its own call. -/
def bqChildrenPlainAux : Nat → String → List Node → String
  | _, acc, [] => acc
  | level, acc, .mk .BlockQuote ccs :: rest =>
    bqChildrenPlainAux level (acc ++ bqChildrenPlainAux (level + 1) "" ccs) rest
  | level, acc, c :: rest =>
    bqChildrenPlainAux level
      (acc ++ leadLines (strRepeat "│ " (level + 1)) (block_node_to_plain_text c)) rest

/-- Modelled from the spec (§4.3): plain-mode list items at a nesting
level; nested lists recurse at `level + 1` with no trailing blank
line. -/
def listItemsPlainAux : Nat → String → List Node → String
  | _, acc, [] => acc
  | level, acc, .mk (.Item item_node_list) ccs :: rest =>
    listItemsPlainAux level (acc ++ itemChildrenPlainAux level item_node_list "" ccs) rest
  | level, acc, c :: rest =>
    listItemsPlainAux level (acc ++ "💔 unexpected child in List Node: " ++ debugRepr c) rest

/-- Modelled from the spec (§4.3): the children of one plain-mode list
item — marker-prefixed paragraph lines and nested lists. -/
def itemChildrenPlainAux : Nat → NodeList → String → List Node → String
  | _, _, acc, [] => acc
  | level, node_list, acc, .mk (.List _) ccs :: rest =>
    itemChildrenPlainAux level node_list
      (acc ++ listItemsPlainAux (level + 1) "" ccs) rest
  | level, node_list, acc, .mk .Paragraph ccs :: rest =>
    itemChildrenPlainAux level node_list
      (acc ++ itemParagraphText node_list level (plainChildrenAux "" ccs ++ "\n")) rest
  | level, node_list, acc, c :: rest =>
    itemChildrenPlainAux level node_list
      (acc ++ "💔 unexpected child in List Item Node: " ++ debugRepr c) rest

end

/-- Modelled from the spec: the plain-mode document render. -/
def document_node_to_plain_text (document : Node) : String :=
  blocksPlainAux "" document.children

/-- Modelled from the spec (§6): the renderer contract
`render(tree, plain) -> text` with the boolean output-mode selector that
`src/src/main.rs` passes (`markdown_to_text(buffer, args.plain)`); only
the returned output string is modelled (diagnostics stay on the side
channel).  `plain = false` is the styled renderer of `src/src/lib.rs`. -/
def ast_to_text_mode (root : Node) (plain : Bool) : String :=
  if plain then document_node_to_plain_text root
  else (document_node_to_text root).1

/-- The terminal escape character `ESC` that begins every terminal
attribute sequence the styled renderer emits. -/
def escChar : Char := '\x1b'

/-- `true` when a string contains no `ESC` character, hence no terminal
attribute sequence. -/
def noEsc (s : String) : Bool :=
  s.data.all (fun c => c != escChar)

/-- `true` when every string payload of a `NodeValue` is `ESC`-free. -/
def escFreeValue : NodeValue → Bool
  | .CodeBlock cb => noEsc cb.info && noEsc cb.literal
  | .HtmlBlock hb => noEsc hb.literal
  | .Code c => noEsc c.literal
  | .HtmlInline s => noEsc s
  | .Link l => noEsc l.url && noEsc l.title
  | .Image l => noEsc l.url && noEsc l.title
  | .Text s => noEsc s
  | .Unknown d => noEsc d
  | _ => true

mutual

/-- `true` when every literal string carried anywhere in the tree is
`ESC`-free, i.e. the input document itself smuggles no terminal
attribute sequences. -/
def escFreeTree : Node → Bool
  | .mk v cs => escFreeValue v && escFreeTreeList cs

/-- `escFreeTree` over a list of children. -/
def escFreeTreeList : List Node → Bool
  | [] => true
  | c :: rest => escFreeTree c && escFreeTreeList rest

end

theorem noEsc_append (a b : String) : noEsc (a ++ b) = (noEsc a && noEsc b) := by
  simp [noEsc, String.data_append, List.all_append]

theorem noEsc_empty : noEsc "" = true := rfl

theorem noEsc_spaces (n : Nat) : noEsc (spaces n) = true := by
  rw [noEsc, spaces, List.all_eq_true]
  intro c hc
  have : c = ' ' := List.eq_of_mem_replicate hc
  subst this
  decide

theorem noEsc_strRepeat (s : String) (hs : noEsc s = true) :
    ∀ n, noEsc (strRepeat s n) = true
  | 0 => rfl
  | n + 1 => by
    rw [strRepeat, noEsc_append, hs, noEsc_strRepeat s hs n]
    rfl

theorem digitChar_ge16 (n : Nat) : Nat.digitChar (n + 16) = '*' := by
  unfold Nat.digitChar
  iterate 16 rw [if_neg (by omega)]

theorem digitChar_ne_esc : ∀ n, Nat.digitChar n ≠ escChar
  | 0 | 1 | 2 | 3 | 4 | 5 | 6 | 7 | 8 | 9 | 10 | 11 | 12 | 13 | 14 | 15 => by decide
  | n + 16 => by rw [digitChar_ge16]; decide

theorem toDigitsCore_ne_esc (b : Nat) :
    ∀ (fuel n : Nat) (ds : List Char), (∀ c ∈ ds, c ≠ escChar) →
      ∀ c ∈ Nat.toDigitsCore b fuel n ds, c ≠ escChar := by
  intro fuel
  induction fuel with
  | zero => intro n ds h c hc; exact h c hc
  | succ fuel ih =>
    intro n ds h c hc
    rw [Nat.toDigitsCore] at hc
    have hds : ∀ c ∈ Nat.digitChar (n % b) :: ds, c ≠ escChar := by
      intro c hc
      rcases List.mem_cons.1 hc with h1 | h1
      · subst h1; exact digitChar_ne_esc _
      · exact h c h1
    by_cases hnb : n / b = 0
    · rw [if_pos hnb] at hc
      exact hds c hc
    · rw [if_neg hnb] at hc
      exact ih (n / b) _ hds c hc

theorem noEsc_natRepr (n : Nat) : noEsc (Nat.repr n) = true := by
  rw [noEsc, List.all_eq_true]
  intro c hc
  have hmem : c ∈ Nat.toDigits 10 n := hc
  have := toDigitsCore_ne_esc 10 (n + 1) n [] (by intro c hc; cases hc) c hmem
  simpa using this

theorem stripCR_subset (cs : List Char) : ∀ c ∈ stripCR cs, c ∈ cs := by
  intro c hc
  rw [stripCR] at hc
  split at hc
  · exact (List.dropLast_sublist cs).mem hc
  · exact hc

theorem rustLinesAux_mem :
    ∀ (cs acc piece : List Char), piece ∈ rustLinesAux acc cs →
      ∀ c ∈ piece, c ∈ acc ∨ c ∈ cs := by
  intro cs
  induction cs with
  | nil =>
    intro acc piece hp c hc
    rw [rustLinesAux] at hp
    split at hp
    · cases hp
    · rcases List.mem_singleton.1 hp with rfl
      exact .inl (List.mem_reverse.1 hc)
  | cons c0 rest ih =>
    intro acc piece hp c hc
    rw [rustLinesAux] at hp
    split at hp
    · rcases List.mem_cons.1 hp with rfl | h1
      · exact .inl (List.mem_reverse.1 (stripCR_subset _ c hc))
      · rcases ih [] piece h1 c hc with h2 | h2
        · cases h2
        · exact .inr (List.mem_cons_of_mem _ h2)
    · rcases ih (c0 :: acc) piece hp c hc with h2 | h2
      · rcases List.mem_cons.1 h2 with rfl | h3
        · exact .inr (List.mem_cons_self _ _)
        · exact .inl h3
      · exact .inr (List.mem_cons_of_mem _ h2)

theorem noEsc_mem_rustLines (s : String) (hs : noEsc s = true) :
    ∀ line ∈ rustLines s, noEsc line = true := by
  intro line hl
  rw [rustLines] at hl
  rcases List.mem_map.1 hl with ⟨piece, hpiece, rfl⟩
  rw [noEsc, List.all_eq_true]
  intro c hc
  have hmem : c ∈ piece := hc
  rcases rustLinesAux_mem s.data [] piece hpiece c hmem with h | h
  · cases h
  · rw [noEsc, List.all_eq_true] at hs
    exact hs c h

theorem noEsc_valueRepr : ∀ v : NodeValue, escFreeValue v = true → noEsc (valueRepr v) = true := by
  intro v h
  cases v <;>
    simp only [valueRepr, escFreeValue, noEsc_append, Bool.and_eq_true, noEsc_natRepr] at h ⊢ <;>
    try decide
  case TableRow b => cases b <;> decide
  all_goals simp_all
  all_goals repeat' apply And.intro
  all_goals decide

mutual

theorem noEsc_debugRepr : ∀ n : Node, escFreeTree n = true → noEsc (debugRepr n) = true
  | .mk v cs, h => by
    rw [escFreeTree] at h
    simp only [Bool.and_eq_true] at h
    obtain ⟨h1, h2⟩ := h
    simp only [debugRepr, noEsc_append,
        noEsc_valueRepr v h1, noEsc_debugReprList cs h2]
    decide

theorem noEsc_debugReprList : ∀ l : List Node, escFreeTreeList l = true → noEsc (debugReprList l) = true
  | [], _ => by decide
  | c :: rest, h => by
    rw [escFreeTreeList] at h
    simp only [Bool.and_eq_true] at h
    obtain ⟨h1, h2⟩ := h
    simp only [debugReprList, noEsc_append,
        noEsc_debugRepr c h1, noEsc_debugReprList rest h2]
    decide

end

mutual

theorem noEsc_text_node_to_plain_text :
    ∀ n : Node, escFreeTree n = true → noEsc (text_node_to_plain_text n) = true
  | .mk v cs, h => by
    have h0 := h
    rw [escFreeTree] at h0
    simp only [Bool.and_eq_true] at h0
    obtain ⟨h1, h2⟩ := h0
    cases v
    all_goals simp only [text_node_to_plain_text]
    case SoftBreak => decide
    case LineBreak => decide
    case Emph => exact noEsc_plainChildrenAux "" cs rfl h2
    case Strong => exact noEsc_plainChildrenAux "" cs rfl h2
    case Underline => exact noEsc_plainChildrenAux "" cs rfl h2
    case Strikethrough => exact noEsc_plainChildrenAux "" cs rfl h2
    case Paragraph => exact noEsc_plainChildrenAux "" cs rfl h2
    case Code code => simpa [escFreeValue] using h1
    case HtmlInline s => simpa [escFreeValue] using h1
    case Text s => simpa [escFreeValue] using h1
    case Link link =>
      simp only [escFreeValue, Bool.and_eq_true] at h1
      simp only [noEsc_append, noEsc_plainChildrenAux "" cs rfl h2, h1.1]
      decide
    case Image image =>
      simp only [escFreeValue, Bool.and_eq_true] at h1
      simp only [noEsc_append, noEsc_plainChildrenAux "" cs rfl h2, h1.1]
      decide
    all_goals simp only [noEsc_append, noEsc_debugRepr _ h]
    all_goals decide

theorem noEsc_plainChildrenAux :
    ∀ (acc : String) (l : List Node), noEsc acc = true → escFreeTreeList l = true →
      noEsc (plainChildrenAux acc l) = true
  | acc, [], ha, _ => by rwa [plainChildrenAux]
  | acc, c :: rest, ha, hl => by
    rw [escFreeTreeList] at hl
    simp only [Bool.and_eq_true] at hl
    rw [plainChildrenAux]
    exact noEsc_plainChildrenAux _ rest
      (by rw [noEsc_append, ha, noEsc_text_node_to_plain_text c hl.1]; rfl) hl.2

end

theorem noEsc_node_children_to_plain_text (n : Node) (h : escFreeTree n = true) :
    noEsc (node_children_to_plain_text n) = true := by
  obtain ⟨v, cs⟩ := n
  rw [escFreeTree] at h
  simp only [Bool.and_eq_true] at h
  exact noEsc_plainChildrenAux "" cs rfl h.2

theorem noEsc_leadLines (lead : String) (hlead : noEsc lead = true) (s : String)
    (hs : noEsc s = true) : noEsc (leadLines lead s) = true := by
  rw [leadLines]
  have h := noEsc_mem_rustLines s hs
  generalize rustLines s = ls at h
  suffices hgen : ∀ (ls : List String) (acc : String), noEsc acc = true →
      (∀ l ∈ ls, noEsc l = true) →
      noEsc (ls.foldl (fun acc line => acc ++ lead ++ line ++ "\n") acc) = true by
    exact hgen ls "" rfl h
  intro ls
  induction ls with
  | nil => intro acc ha _; simpa using ha
  | cons l rest ih =>
    intro acc ha hl
    rw [List.foldl_cons]
    apply ih
    · have hx := hl l (List.mem_cons_self _ _)
      simp only [noEsc_append, ha, hx, hlead]
      decide
    · exact fun x hx => hl x (List.mem_cons_of_mem _ hx)

theorem noEsc_item_marker : ∀ (node_list : NodeList) (level : Nat),
    noEsc (item_marker node_list level).1 = true := by
  intro ⟨lt, st, dl⟩ level
  rcases level with _ | _ | n <;> cases lt <;> cases dl <;>
      simp [item_marker, noEsc_append, noEsc_natRepr] <;> decide

theorem noEsc_itemLinesAux (lead marker lead2 : String) (h1 : noEsc lead = true)
    (h2 : noEsc marker = true) (h3 : noEsc lead2 = true) :
    ∀ (ls : List String) (index : Nat) (acc : String), noEsc acc = true →
      (∀ l ∈ ls, noEsc l = true) →
      noEsc (itemLinesAux lead marker lead2 index acc ls) = true
  | [], _, acc, ha, _ => by rwa [itemLinesAux]
  | l :: rest, index, acc, ha, hl => by
    rw [itemLinesAux]
    apply noEsc_itemLinesAux lead marker lead2 h1 h2 h3 rest
    · have hx := hl l (List.mem_cons_self _ _)
      split <;> simp only [noEsc_append, ha, h1, h2, h3, hx] <;> decide
    · exact fun x hx => hl x (List.mem_cons_of_mem _ hx)

theorem noEsc_itemParagraphText (node_list : NodeList) (level : Nat) (para : String)
    (hp : noEsc para = true) : noEsc (itemParagraphText node_list level para) = true := by
  rw [itemParagraphText]
  exact noEsc_itemLinesAux _ _ _ (noEsc_spaces _) (noEsc_item_marker _ _) (noEsc_spaces _)
    (rustLines para) 0 "" rfl (noEsc_mem_rustLines para hp)

theorem noEsc_table_cell_node_to_plain_text (cell : Node) (width : Nat)
    (alignment : TableAlignment) (h : escFreeTree cell = true) :
    noEsc (table_cell_node_to_plain_text cell width alignment) = true := by
  have hc := noEsc_node_children_to_plain_text cell h
  cases alignment <;>
    simp only [table_cell_node_to_plain_text, noEsc_append, noEsc_spaces, hc] <;> decide

theorem noEsc_rowCellsPlainAux (ws : List Nat) (als : List TableAlignment) :
    ∀ (l : List Node) (idx : Nat) (acc : String), noEsc acc = true →
      escFreeTreeList l = true → noEsc (rowCellsPlainAux ws als idx acc l) = true
  | [], _, acc, ha, _ => by rwa [rowCellsPlainAux]
  | c :: rest, idx, acc, ha, hl => by
    rw [escFreeTreeList] at hl
    simp only [Bool.and_eq_true] at hl
    rw [rowCellsPlainAux]
    split
    · apply noEsc_rowCellsPlainAux ws als rest
      · simp only [noEsc_append, ha,
          noEsc_table_cell_node_to_plain_text c _ _ hl.1]
        decide
      · exact hl.2
    · apply noEsc_rowCellsPlainAux ws als rest
      · simp only [noEsc_append, ha, noEsc_debugRepr c hl.1]
        decide
      · exact hl.2

theorem noEsc_tableRowsPlainAux (ws : List Nat) (als : List TableAlignment) :
    ∀ (l : List Node) (acc : String), noEsc acc = true →
      escFreeTreeList l = true → noEsc (tableRowsPlainAux ws als acc l) = true
  | [], acc, ha, _ => by rwa [tableRowsPlainAux]
  | c :: rest, acc, ha, hl => by
    rw [escFreeTreeList] at hl
    simp only [Bool.and_eq_true] at hl
    rw [tableRowsPlainAux]
    split
    · apply noEsc_tableRowsPlainAux ws als rest
      · have hcells : escFreeTreeList c.children = true := by
          obtain ⟨v, ccs⟩ := c
          rw [escFreeTree] at hl
          simp only [Bool.and_eq_true] at hl
          exact hl.1.2
        simp only [noEsc_append, ha, noEsc_rowCellsPlainAux ws als c.children 0 "" rfl hcells]
        decide
      · exact hl.2
    · apply noEsc_tableRowsPlainAux ws als rest
      · simp only [noEsc_append, ha, noEsc_debugRepr c hl.1]
        decide
      · exact hl.2

theorem noEsc_table_node_to_plain_text (table_node : Node) (node_table : NodeTable)
    (h : escFreeTree table_node = true) :
    noEsc (table_node_to_plain_text table_node node_table) = true := by
  have hcs : escFreeTreeList table_node.children = true := by
    obtain ⟨v, ccs⟩ := table_node
    rw [escFreeTree] at h
    simp only [Bool.and_eq_true] at h
    exact h.2
  rw [table_node_to_plain_text]
  simp only [noEsc_append,
    noEsc_tableRowsPlainAux _ _ table_node.children "" rfl hcs]
  decide

theorem noEsc_code_block_node_to_plain_text (code_block : NodeCodeBlock)
    (hi : noEsc code_block.info = true) (hl : noEsc code_block.literal = true) :
    noEsc (code_block_node_to_plain_text code_block) = true := by
  rw [code_block_node_to_plain_text]
  have hlines : noEsc ((rustLines code_block.literal).foldl
      (fun acc line => acc ++ "▌ " ++ line ++ "\n") "") = true := by
    have h := noEsc_mem_rustLines code_block.literal hl
    generalize rustLines code_block.literal = ls at h
    suffices hgen : ∀ (ls : List String) (acc : String), noEsc acc = true →
        (∀ l ∈ ls, noEsc l = true) →
        noEsc (ls.foldl (fun acc line => acc ++ "▌ " ++ line ++ "\n") acc) = true by
      exact hgen ls "" rfl h
    intro ls
    induction ls with
    | nil => intro acc ha _; simpa using ha
    | cons l rest ih =>
      intro acc ha hml
      rw [List.foldl_cons]
      apply ih
      · have hx := hml l (List.mem_cons_self _ _)
        simp only [noEsc_append, ha, hx]
        decide
      · exact fun x hx => hml x (List.mem_cons_of_mem _ hx)
  split <;> simp only [noEsc_append, hlines, hi] <;> decide

mutual

theorem noEsc_block_node_to_plain_text :
    ∀ n : Node, escFreeTree n = true → noEsc (block_node_to_plain_text n) = true
  | .mk v cs, h => by
    have h0 := h
    rw [escFreeTree] at h0
    simp only [Bool.and_eq_true] at h0
    obtain ⟨h1, h2⟩ := h0
    cases v
    all_goals simp only [block_node_to_plain_text]
    case Paragraph =>
      simp only [noEsc_append, noEsc_plainChildrenAux "" cs rfl h2]; decide
    case Heading heading =>
      simp only [noEsc_append, noEsc_plainChildrenAux "" cs rfl h2]; decide
    case List node_list =>
      simp only [noEsc_append, noEsc_listItemsPlainAux 0 cs "" rfl h2]; decide
    case BlockQuote =>
      simp only [noEsc_append, noEsc_bqChildrenPlainAux 0 cs "" rfl h2]; decide
    case CodeBlock code_block =>
      simp only [escFreeValue, Bool.and_eq_true] at h1
      exact noEsc_code_block_node_to_plain_text code_block h1.1 h1.2
    case HtmlBlock html_block =>
      simp only [escFreeValue] at h1
      simp only [html_block_node_to_text, noEsc_append, h1]; decide
    case ThematicBreak => decide
    case Table node_table =>
      exact noEsc_table_node_to_plain_text (.mk (.Table node_table) cs) node_table h
    all_goals decide

theorem noEsc_blocksPlainAux :
    ∀ (l : List Node) (acc : String), noEsc acc = true → escFreeTreeList l = true →
      noEsc (blocksPlainAux acc l) = true
  | [], acc, ha, _ => by rwa [blocksPlainAux]
  | c :: rest, acc, ha, hl => by
    rw [escFreeTreeList] at hl
    simp only [Bool.and_eq_true] at hl
    rw [blocksPlainAux]
    apply noEsc_blocksPlainAux rest
    · simp only [noEsc_append, ha, noEsc_block_node_to_plain_text c hl.1]; decide
    · exact hl.2

theorem noEsc_bqChildrenPlainAux :
    ∀ (level : Nat) (l : List Node) (acc : String), noEsc acc = true →
      escFreeTreeList l = true → noEsc (bqChildrenPlainAux level acc l) = true
  | _, [], acc, ha, _ => by rwa [bqChildrenPlainAux]
  | level, (.mk v ccs) :: rest, acc, ha, hl => by
    rw [escFreeTreeList] at hl
    simp only [Bool.and_eq_true] at hl
    obtain ⟨hc, hrest⟩ := hl
    have hccs : escFreeTreeList ccs = true := by
      rw [escFreeTree] at hc
      simp only [Bool.and_eq_true] at hc
      exact hc.2
    cases v
    all_goals simp only [bqChildrenPlainAux]
    case BlockQuote =>
      refine noEsc_bqChildrenPlainAux level rest _ ?_ hrest
      simp only [noEsc_append, ha,
        noEsc_bqChildrenPlainAux (level + 1) ccs "" rfl hccs]
      decide
    all_goals refine noEsc_bqChildrenPlainAux level rest _ ?_ hrest
    all_goals rw [noEsc_append,
      noEsc_leadLines _ (noEsc_strRepeat _ (by decide) _) _
        (noEsc_block_node_to_plain_text (.mk _ ccs) hc), ha]
    all_goals decide

theorem noEsc_listItemsPlainAux :
    ∀ (level : Nat) (l : List Node) (acc : String), noEsc acc = true →
      escFreeTreeList l = true → noEsc (listItemsPlainAux level acc l) = true
  | _, [], acc, ha, _ => by rwa [listItemsPlainAux]
  | level, (.mk v ccs) :: rest, acc, ha, hl => by
    rw [escFreeTreeList] at hl
    simp only [Bool.and_eq_true] at hl
    obtain ⟨hc, hrest⟩ := hl
    have hccs : escFreeTreeList ccs = true := by
      rw [escFreeTree] at hc
      simp only [Bool.and_eq_true] at hc
      exact hc.2
    cases v
    all_goals simp only [listItemsPlainAux]
    case Item node_list =>
      refine noEsc_listItemsPlainAux level rest _ ?_ hrest
      simp only [noEsc_append, ha,
        noEsc_itemChildrenPlainAux level node_list ccs "" rfl hccs]
      decide
    all_goals refine noEsc_listItemsPlainAux level rest _ ?_ hrest
    all_goals simp only [noEsc_append, ha, noEsc_debugRepr (.mk _ ccs) hc]
    all_goals decide

theorem noEsc_itemChildrenPlainAux :
    ∀ (level : Nat) (node_list : NodeList) (l : List Node) (acc : String),
      noEsc acc = true → escFreeTreeList l = true →
      noEsc (itemChildrenPlainAux level node_list acc l) = true
  | _, _, [], acc, ha, _ => by rwa [itemChildrenPlainAux]
  | level, node_list, (.mk v ccs) :: rest, acc, ha, hl => by
    rw [escFreeTreeList] at hl
    simp only [Bool.and_eq_true] at hl
    obtain ⟨hc, hrest⟩ := hl
    have hccs : escFreeTreeList ccs = true := by
      rw [escFreeTree] at hc
      simp only [Bool.and_eq_true] at hc
      exact hc.2
    cases v
    all_goals simp only [itemChildrenPlainAux]
    case List node_list2 =>
      refine noEsc_itemChildrenPlainAux level node_list rest _ ?_ hrest
      simp only [noEsc_append, ha,
        noEsc_listItemsPlainAux (level + 1) ccs "" rfl hccs]
      decide
    case Paragraph =>
      refine noEsc_itemChildrenPlainAux level node_list rest _ ?_ hrest
      have hpara : noEsc (plainChildrenAux "" ccs ++ "\n") = true := by
        simp only [noEsc_append, noEsc_plainChildrenAux "" ccs rfl hccs]; decide
      simp only [noEsc_append, ha,
        noEsc_itemParagraphText node_list level _ hpara]
      decide
    all_goals refine noEsc_itemChildrenPlainAux level node_list rest _ ?_ hrest
    all_goals simp only [noEsc_append, ha, noEsc_debugRepr (.mk _ ccs) hc]
    all_goals decide

end

/-- C1: for every input document tree (whose own literals smuggle no
`ESC` character), rendering with the output-mode selector set to plain
yields a string containing no terminal attribute (escape) sequence —
not even the `ESC` character itself; the renderer `ast_to_text_mode`
accepts the boolean plain/styled mode selector alongside the tree.
The plain mode is modelled from the spec because the two-argument
renderer `src/src/main.rs` calls is not in `src/`. -/
theorem c1_plain_mode_purity (root : Node) (h : escFreeTree root = true) :
    noEsc (ast_to_text_mode root true) = true := by
  rw [ast_to_text_mode, if_pos rfl, document_node_to_plain_text]
  obtain ⟨v, cs⟩ := root
  rw [escFreeTree] at h
  simp only [Bool.and_eq_true] at h
  exact noEsc_blocksPlainAux cs "" rfl h.2

/-- Witness for C1 at a concrete document: a heading, a paragraph, a
bullet list, a blockquote and a code block. -/
theorem c1_plain_mode_purity_witness :
    escFreeTree (.mk .Document
      [.mk (.Heading ⟨1⟩) [.mk (.Text "Title") []],
       .mk .Paragraph [.mk (.Text "Body text.") []],
       .mk (.List ⟨.Bullet, 1, .Period⟩)
         [.mk (.Item ⟨.Bullet, 1, .Period⟩) [.mk .Paragraph [.mk (.Text "a") []]]],
       .mk .BlockQuote [.mk .Paragraph [.mk (.Text "quoted") []]],
       .mk (.CodeBlock ⟨"rust", "let x = 1;"⟩) []]) = true
  ∧ noEsc (ast_to_text_mode (.mk .Document
      [.mk (.Heading ⟨1⟩) [.mk (.Text "Title") []],
       .mk .Paragraph [.mk (.Text "Body text.") []],
       .mk (.List ⟨.Bullet, 1, .Period⟩)
         [.mk (.Item ⟨.Bullet, 1, .Period⟩) [.mk .Paragraph [.mk (.Text "a") []]]],
       .mk .BlockQuote [.mk .Paragraph [.mk (.Text "quoted") []]],
       .mk (.CodeBlock ⟨"rust", "let x = 1;"⟩) []]) true) = true :=
  ⟨by simp only [escFreeTree, escFreeTreeList]; decide,
   c1_plain_mode_purity _ (by simp only [escFreeTree, escFreeTreeList]; decide)⟩

/-- C2 counterexample: a `Text` node in document position (where the
dispatch does not expect it) makes the renderer print a `🔴 …♦`
diagnostic to the side channel but add NOTHING to the output — no
placeholder string appears in the output at that position, refuting the
claim that a diagnostic is emitted AND a placeholder is substituted.
The sibling paragraph is still rendered. -/
theorem c2_counterexample :
    document_node_to_text (.mk .Document
        [.mk (.Text "x") [], .mk .Paragraph [.mk (.Text "ok") []]])
      = ("ok\n", ["🔴 Text: x♦"]) := by
  simp [document_node_to_text, docChildrenAux, docChildStep, paragraph_node_to_text,
        node_children_to_text, fmtChildrenAux, text_node_to_formatted_text,
        Node.value, Node.children]

/-- C2 as amended: when a node appears where the dispatch does not
recognize it, the renderer never aborts; in inline positions it
substitutes a visually distinct placeholder (`💔 unexpected child …`)
into the output and emits no side-channel diagnostic, and rendering of
the remaining siblings continues; as a direct child of the document it
emits a `🔴 …♦` diagnostic to the side channel, adds nothing to the
output, and the remaining children are rendered unchanged. -/
theorem c2_amended_unrecognized_node :
    (∀ (d : String) (cs : List Node),
      text_node_to_plain_text (.mk (.Unknown d) cs)
        = "💔 unexpected child in Text node: " ++ debugRepr (.mk (.Unknown d) cs)
      ∧ text_node_to_formatted_text (.mk (.Unknown d) cs)
        = "💔 unexpected child in Text node: " ++ debugRepr (.mk (.Unknown d) cs))
  ∧ (∀ (d : String) (cs rest : List Node) (acc : String),
      plainChildrenAux acc (.mk (.Unknown d) cs :: rest)
        = plainChildrenAux
            (acc ++ ("💔 unexpected child in Text node: " ++ debugRepr (.mk (.Unknown d) cs)))
            rest)
  ∧ (∀ (d : String) (cs rest : List Node),
      docChildrenAux (.mk (.Unknown d) cs :: rest)
        = ((docChildrenAux rest).1, ("🔴 " ++ d ++ "♦") :: (docChildrenAux rest).2)) := by
  refine ⟨fun d cs => ⟨?_, ?_⟩, fun d cs rest acc => ?_, fun d cs rest => ?_⟩
  · simp [text_node_to_plain_text]
  · simp [text_node_to_formatted_text]
  · simp [plainChildrenAux, text_node_to_plain_text]
  · simp [docChildrenAux, docChildStep, Node.value]

/-- C3 (code bug): the blockquote fold discards its accumulator for a
non-blockquote child and prefixes only the start of that child's whole
rendering, not every line.  First conjunct: a blockquote with two
paragraph children `a` and `b` renders as `"\n│ b\n"` — the first
child's text is lost and only one prefix appears.  Second conjunct: a
blockquote around a paragraph with a hard line break renders as
`"\n│ a\nb\n"` — the second output line carries no `│ ` prefix. -/
theorem c3_blockquote_eval :
    blockquote_node_to_text (.mk .BlockQuote
        [.mk .Paragraph [.mk (.Text "a") []],
         .mk .Paragraph [.mk (.Text "b") []]]) 0
      = "\n│ b\n"
  ∧ blockquote_node_to_text (.mk .BlockQuote
        [.mk .Paragraph
          [.mk (.Text "a") [], .mk .LineBreak [], .mk (.Text "b") []]]) 0
      = "\n│ a\nb\n" := by
  constructor <;>
    simp [blockquote_node_to_text, bqChildrenAux, fmtChildrenAux,
      text_node_to_formatted_text, strRepeat, Node.children]

/-- C6 (code bug): the bullet list `- a`, `- b` rendered by the source
produces `" • a\n • b\n\n"` — each item line begins with a stray space
before the level-0 bullet glyph, coming from the
`format!("{} {}", acc, text)` in `item_node_to_text`; the claim's
`"• a\n• b\n\n"` (lines beginning with the glyph) differs. -/
theorem c6_bullet_list_eval :
    list_node_to_text (.mk (.List ⟨.Bullet, 1, .Period⟩)
        [.mk (.Item ⟨.Bullet, 1, .Period⟩) [.mk .Paragraph [.mk (.Text "a") []]],
         .mk (.Item ⟨.Bullet, 1, .Period⟩) [.mk .Paragraph [.mk (.Text "b") []]]]) 0
      = " • a\n • b\n\n"
  ∧ " • a\n • b\n\n" ≠ "• a\n• b\n\n" := by
  constructor
  · simp [list_node_to_text, listLevelWrap, listItemsAux, itemChildrenAux,
      itemParagraphText, itemLinesAux, item_marker, fmtChildrenAux,
      text_node_to_formatted_text, rustLines, rustLinesAux, stripCR, spaces,
      Node.children]
  · decide

/-- C8 (code bug): the fold in `node_children_to_text` re-applies the
`bol`/`eol` strings on every iteration, so a level-1 heading with two
inline children is wrapped twice (nested `ESC[1;4m` prefixes) and the
reset-plus-blank-line suffix appears twice — once in the middle of the
heading — refuting "exactly one level-dependent attribute pair …
followed by a blank line … regardless of how many inline children". -/
theorem c8_heading_eval :
    heading_node_to_text (.mk (.Heading ⟨1⟩)
        [.mk (.Text "a ") [], .mk .Emph [.mk (.Text "b") []]]) ⟨1⟩
      = "\x1b[1;4m\x1b[1;4ma \x1b[0m\n\n\x1b[3mb\x1b[0m\x1b[0m\n\n" := by
  simp [heading_node_to_text, node_children_to_text, fmtChildrenAux,
    text_node_to_formatted_text, Node.children]

/-- C9 counterexample: `code_block_node_to_text` never reads the `info`
field, so a code block with the non-empty info string `"rust"` renders
exactly like one with an empty info string — no banner derived from the
info string precedes the block. -/
theorem c9_counterexample :
    code_block_node_to_text ⟨"rust", "x"⟩ = code_block_node_to_text ⟨"", "x"⟩
  ∧ code_block_node_to_text ⟨"rust", "x"⟩
      = "\x1b[97m\x1b[48;5;238mx\x1b[0K\x1b[0m\n\n" :=
  ⟨rfl, rfl⟩

/-- C7: the list item marker computed by `item_node_to_text` depends
only on the list kind and the nesting level.  A bullet item uses `•` at
level 0, `◦` at level 1 and `▪` at every level `k + 2`, whatever the
`start` and `delimiter` fields hold and independent of any sibling; an
ordered item's marker is `"{start}{delimiter}"` with `.` for `Period`
and `)` for `Paren`, at every level. -/
theorem c7_list_marker_determinism :
    (∀ (s : Nat) (d : ListDelimType),
      (item_marker ⟨.Bullet, s, d⟩ 0).1 = "•"
      ∧ (item_marker ⟨.Bullet, s, d⟩ 1).1 = "◦"
      ∧ ∀ k : Nat, (item_marker ⟨.Bullet, s, d⟩ (k + 2)).1 = "▪")
  ∧ (∀ (s : Nat) (level : Nat),
      (item_marker ⟨.Ordered, s, .Period⟩ level).1 = Nat.repr s ++ "."
      ∧ (item_marker ⟨.Ordered, s, .Paren⟩ level).1 = Nat.repr s ++ ")") := by
  constructor
  · intro s d
    refine ⟨by simp [item_marker], by simp [item_marker], fun k => by simp [item_marker]⟩
  · intro s level
    constructor <;> simp [item_marker]

theorem spaces_comm_space (n : Nat) : " " ++ spaces n = spaces n ++ " " := by
  apply String.ext
  simp only [String.data_append, spaces]
  show ' ' :: List.replicate n ' ' = List.replicate n ' ' ++ [' ']
  rw [← List.replicate_succ, List.replicate_succ']

theorem space_spaces_slide (n : Nat) (t : String) :
    " " ++ (spaces n ++ t) = spaces n ++ (" " ++ t) := by
  rw [← String.append_assoc, spaces_comm_space, String.append_assoc]

theorem spaces_zero : spaces 0 = "" := rfl

theorem rustLen_append (a b : String) : rustLen (a ++ b) = rustLen a + rustLen b := by
  simp [rustLen, String.data_append]

theorem rustLen_spaces (n : Nat) : rustLen (spaces n) = n := by
  simp only [rustLen, spaces]
  show ((List.replicate n ' ').map Char.utf8Size).sum = n
  rw [List.map_replicate, List.sum_replicate]
  simp [Char.utf8Size]

/-- The claim's left-padding share: `Center` puts `⌊p/2⌋` on the left,
`Right` all of `p`, `Left`/`None` nothing. -/
def cellLeftPad : TableAlignment → Nat → Nat
  | .Center, p => p / 2
  | .Right, p => p
  | .Left, _ => 0
  | .None, _ => 0

/-- The claim's right-padding share: `Center` puts the remainder
`p - ⌊p/2⌋` on the right, `Right` nothing, `Left`/`None` all of `p`. -/
def cellRightPad : TableAlignment → Nat → Nat
  | .Center, p => p - p / 2
  | .Right, _ => 0
  | .Left, p => p
  | .None, p => p

/-- C5: a table cell rendered at width `plain length + p` consists of
the alignment-split padding around the cell content followed by one
trailing space separator (header cells additionally wrapped in the
bold+underline pair and clear-to-end-of-line), and content plus padding
plus the separator together occupy exactly `width + 1` display
characters (counted at the plain length of the content). -/
theorem c5_cell_width_and_alignment (cs : List Node) (p : Nat) (al : TableAlignment) :
    table_cell_node_to_text (.mk .TableCell cs) false
        (rustLen (node_children_to_plain_text (.mk .TableCell cs)) + p) al
      = spaces (cellLeftPad al p)
        ++ node_children_to_text (.mk .TableCell cs) none none
        ++ spaces (cellRightPad al p) ++ " "
  ∧ table_cell_node_to_text (.mk .TableCell cs) true
        (rustLen (node_children_to_plain_text (.mk .TableCell cs)) + p) al
      = "\x1b[1;4m" ++ spaces (cellLeftPad al p)
        ++ node_children_to_text (.mk .TableCell cs) none none
        ++ spaces (cellRightPad al p) ++ " " ++ "\x1b[0K\x1b[0m"
  ∧ cellLeftPad al p + rustLen (node_children_to_plain_text (.mk .TableCell cs))
        + cellRightPad al p + 1
      = (rustLen (node_children_to_plain_text (.mk .TableCell cs)) + p) + 1 := by
  refine ⟨?_, ?_, ?_⟩
  · cases al <;>
      simp [table_cell_node_to_text, cellLeftPad, cellRightPad,
        Nat.add_sub_cancel_left, spaces_zero, String.append_assoc,
        spaces_comm_space, space_spaces_slide,
        String.append_empty, String.empty_append]
  · cases al <;>
      simp [table_cell_node_to_text, cellLeftPad, cellRightPad,
        Nat.add_sub_cancel_left, spaces_zero, String.append_assoc,
        spaces_comm_space, space_spaces_slide,
        String.append_empty, String.empty_append]
  · cases al <;> simp [cellLeftPad, cellRightPad] <;> omega

theorem maxFoldRow_length (n : Nat) (acc row : List Nat) :
    (maxFoldRow n acc row).length = acc.length := by
  rw [maxFoldRow]
  generalize List.range n = is
  induction is generalizing acc with
  | nil => rfl
  | cons i is ih =>
    rw [List.foldl_cons]
    rw [ih]
    split <;> simp [List.length_set]

theorem maxFoldRow_getD_of_not_mem (row acc : List Nat) (j : Nat) :
    ∀ is : List Nat, (∀ i ∈ is, i ≠ j) →
      (is.foldl (fun a i => if row.getD i 0 > a.getD i 0 then a.set i (row.getD i 0) else a)
        acc).getD j 0 = acc.getD j 0 := by
  intro is
  induction is generalizing acc with
  | nil => intro _; rfl
  | cons i is ih =>
    intro h
    rw [List.foldl_cons]
    rw [ih _ (fun x hx => h x (List.mem_cons_of_mem _ hx))]
    have hij : i ≠ j := h i (List.mem_cons_self _ _)
    split
    · simp [List.getD_eq_getElem?_getD, List.getElem?_set, hij]
    · rfl

theorem maxFoldRow_getD_ge (n : Nat) (acc row : List Nat) (j : Nat) (hj : n ≤ j) :
    (maxFoldRow n acc row).getD j 0 = acc.getD j 0 := by
  rw [maxFoldRow]
  exact maxFoldRow_getD_of_not_mem row acc j (List.range n)
    (fun i hi => Nat.ne_of_lt (Nat.lt_of_lt_of_le (List.mem_range.1 hi) hj))

theorem maxFoldRow_getD_lt : ∀ (n : Nat) (acc row : List Nat) (j : Nat), j < n →
    n ≤ acc.length →
    (maxFoldRow n acc row).getD j 0 = max (acc.getD j 0) (row.getD j 0)
  | 0, _, _, _, hj, _ => absurd hj (Nat.not_lt_zero _)
  | n + 1, acc, row, j, hj, hlen => by
    have hstep : maxFoldRow (n + 1) acc row
        = if row.getD n 0 > (maxFoldRow n acc row).getD n 0
          then (maxFoldRow n acc row).set n (row.getD n 0)
          else maxFoldRow n acc row := by
      rw [maxFoldRow, maxFoldRow, List.range_succ, List.foldl_append, List.foldl_cons,
        List.foldl_nil]
    rcases Nat.lt_or_ge j n with hjn | hjn
    · rw [hstep]
      have hne : n ≠ j := Nat.ne_of_gt hjn
      have ih := maxFoldRow_getD_lt n acc row j hjn (Nat.le_of_succ_le hlen)
      split
      · rw [List.getD_eq_getElem?_getD, List.getElem?_set, if_neg hne,
          ← List.getD_eq_getElem?_getD _ _ 0, ih]
      · exact ih
    · have hjn' : j = n := Nat.le_antisymm (Nat.lt_succ_iff.1 hj) hjn
      subst hjn'
      rw [hstep]
      have hbase := maxFoldRow_getD_ge j acc row j (Nat.le_refl _)
      have hlt : j < (maxFoldRow j acc row).length := by
        rw [maxFoldRow_length]
        omega
      split
      · rename_i hgt
        rw [hbase] at hgt
        rw [List.getD_eq_getElem?_getD, List.getElem?_set_self hlt]
        rw [Nat.max_eq_right (Nat.le_of_lt hgt)]
        rfl
      · rename_i hngt
        rw [hbase] at hngt ⊢
        rw [Nat.max_eq_left (Nat.not_lt.1 hngt)]

theorem foldl_maxFoldRow_getD (n : Nat) :
    ∀ (rows : List (List Nat)) (acc : List Nat), acc.length = n → ∀ j, j < n →
      (rows.foldl (maxFoldRow n) acc).getD j 0
        = rows.foldl (fun m rw => max m (rw.getD j 0)) (acc.getD j 0)
  | [], _, _, _, _ => rfl
  | rw :: rows, acc, hlen, j, hj => by
    rw [List.foldl_cons, List.foldl_cons]
    rw [foldl_maxFoldRow_getD n rows (maxFoldRow n acc rw)
      (by rw [maxFoldRow_length, hlen]) j hj]
    rw [maxFoldRow_getD_lt n acc rw j hj (Nat.le_of_eq hlen.symm)]

theorem foldl_maxFoldRow_length (n : Nat) : ∀ (rows : List (List Nat)) (acc : List Nat),
    (rows.foldl (maxFoldRow n) acc).length = acc.length
  | [], _ => rfl
  | rw :: rows, acc => by
    rw [List.foldl_cons, foldl_maxFoldRow_length n rows _, maxFoldRow_length]

theorem column_widths_of_getD (table_node : Node) (n : Nat) (j : Nat) (hj : j < n) :
    (column_widths_of table_node n).getD j 0
      = (row_column_widths table_node).foldl (fun m rw => max m (rw.getD j 0)) 0 := by
  rw [column_widths_of]
  rw [foldl_maxFoldRow_getD n _ _ (List.length_replicate _ _) j hj]
  have h0 : (List.replicate n (0 : Nat)).getD j 0 = 0 := by
    simp [List.getD_eq_getElem?_getD, List.getElem?_replicate, hj]
  rw [h0]

theorem column_widths_of_length (table_node : Node) (n : Nat) :
    (column_widths_of table_node n).length = n := by
  rw [column_widths_of, foldl_maxFoldRow_length, List.length_replicate]

/-- The §3 data-model invariant for one table, as a decidable check:
every child of the table node is a `TableRow` whose children are
exactly `num_columns` nodes, all of them `TableCell`s. -/
def wellFormedTable (table_node : Node) (num_columns : Nat) : Bool :=
  table_node.children.all (fun row =>
    match row.value with
    | .TableRow _ =>
      row.children.length == num_columns &&
      row.children.all (fun c => match c.value with | .TableCell => true | _ => false)
    | _ => false)

theorem wellFormedTable_row (table_node : Node) (num_columns : Nat)
    (h : wellFormedTable table_node num_columns = true) :
    ∀ row ∈ table_node.children,
      (∃ b, row.value = .TableRow b) ∧ row.children.length = num_columns := by
  intro row hrow
  rw [wellFormedTable, List.all_eq_true] at h
  have hthis := h row hrow
  cases hv : row.value <;> rw [hv] at hthis
  case TableRow b =>
    simp only [Bool.and_eq_true, beq_iff_eq] at hthis
    exact ⟨⟨b, rfl⟩, hthis.1⟩
  all_goals simp at hthis

theorem getD_map_cellPlainLen (l : List Node) (j : Nat) (hj : j < l.length) :
    (l.map cellPlainLen).getD j 0 = cellPlainLen (l.getD j (.mk .TableCell [])) := by
  rw [List.getD_eq_getElem?_getD, List.getElem?_map, List.getD_eq_getElem?_getD,
    List.getElem?_eq_getElem hj]
  simp

theorem foldl_max_init_le {α : Type} (g : α → Nat) :
    ∀ (l : List α) (a : Nat), a ≤ l.foldl (fun m x => max m (g x)) a
  | [], _ => Nat.le_refl _
  | x :: l, a =>
    Nat.le_trans (Nat.le_max_left a (g x)) (foldl_max_init_le g l (max a (g x)))

theorem le_foldl_max_of_mem {α : Type} (g : α → Nat) :
    ∀ (l : List α) (a : Nat) (x : α), x ∈ l → g x ≤ l.foldl (fun m y => max m (g y)) a
  | y :: l, a, x, hmem => by
    rcases List.mem_cons.1 hmem with rfl | hmem'
    · rw [List.foldl_cons]
      exact Nat.le_trans (Nat.le_max_right a (g x)) (foldl_max_init_le g l _)
    · rw [List.foldl_cons]
      exact le_foldl_max_of_mem g l _ x hmem'

/-- The width pass under the data-model invariant: entry `j` of the
computed `column_widths` is the running maximum, over the table's rows,
of the plain cell length of that row's cell `j`. -/
theorem column_widths_of_spec (table_node : Node) (n : Nat)
    (hwf : wellFormedTable table_node n = true) (j : Nat) (hj : j < n) :
    (column_widths_of table_node n).getD j 0
      = table_node.children.foldl
          (fun m row => max m (cellPlainLen (row.children.getD j (.mk .TableCell [])))) 0 := by
  rw [column_widths_of_getD table_node n j hj, row_column_widths, List.foldl_map]
  apply List.foldl_ext
  intro a row hrow
  obtain ⟨⟨b, hv⟩, hlen⟩ := wellFormedTable_row table_node n hwf row hrow
  rw [hv]
  rw [getD_map_cellPlainLen row.children j (by rw [hlen]; exact hj)]

/-- C4: under the §3 table invariant, entry `j` of the computed
`column_widths` equals the maximum (as a running `max` starting from
`0`) over all rows of the plain (unstyled) rendered byte length of that
row's cell `j`; and a column of maximum plain width `0` is legal — an
empty cell rendered at width `0` produces no padding characters, only
the content and the separator space, for every alignment. -/
theorem c4_width_pass (table_node : Node) (node_table : NodeTable)
    (hwf : wellFormedTable table_node node_table.num_columns = true) :
    (∀ j, j < node_table.num_columns →
      (column_widths_of table_node node_table.num_columns).getD j 0
        = table_node.children.foldl
            (fun m row => max m (cellPlainLen (row.children.getD j (.mk .TableCell [])))) 0)
  ∧ (∀ (alignment : TableAlignment) (ccs : List Node),
      node_children_to_plain_text (.mk .TableCell ccs) = "" →
      table_cell_node_to_text (.mk .TableCell ccs) false 0 alignment
        = node_children_to_text (.mk .TableCell ccs) none none ++ " ") := by
  constructor
  · intro j hj
    exact column_widths_of_spec table_node node_table.num_columns hwf j hj
  · intro alignment ccs hempty
    cases alignment <;>
      simp [table_cell_node_to_text, hempty, rustLen, spaces_zero,
        String.append_empty, String.empty_append]

/-- Witness for C4 at the two-row, two-column table of spec scenario 3
(header `A | BB`, body `1 | 2`). -/
theorem c4_width_pass_witness :
    wellFormedTable (.mk (.Table ⟨2, [.None, .None]⟩)
        [.mk (.TableRow true) [.mk .TableCell [.mk (.Text "A") []],
                               .mk .TableCell [.mk (.Text "BB") []]],
         .mk (.TableRow false) [.mk .TableCell [.mk (.Text "1") []],
                                .mk .TableCell [.mk (.Text "2") []]]]) 2 = true
  ∧ (0 : Nat) < 2
  ∧ (column_widths_of (.mk (.Table ⟨2, [.None, .None]⟩)
        [.mk (.TableRow true) [.mk .TableCell [.mk (.Text "A") []],
                               .mk .TableCell [.mk (.Text "BB") []]],
         .mk (.TableRow false) [.mk .TableCell [.mk (.Text "1") []],
                                .mk .TableCell [.mk (.Text "2") []]]] : Node) 2).getD 0 0
      = ((.mk (.Table ⟨2, [.None, .None]⟩)
        [.mk (.TableRow true) [.mk .TableCell [.mk (.Text "A") []],
                               .mk .TableCell [.mk (.Text "BB") []]],
         .mk (.TableRow false) [.mk .TableCell [.mk (.Text "1") []],
                                .mk .TableCell [.mk (.Text "2") []]]] : Node)).children.foldl
          (fun m row => max m (cellPlainLen (row.children.getD 0 (.mk .TableCell [])))) 0 :=
  ⟨by decide, by decide,
   (c4_width_pass _ ⟨2, [.None, .None]⟩ (by decide)).1 0 (by decide)⟩

/-- C10: under the §3 table invariants (every child of the table a
`TableRow` with exactly `num_columns` `TableCell` children, and an
`alignments` list of length `num_columns`), the table render cannot
panic: the per-row width lists all have length `num_columns` (so the
width fold's `row[i]` indexing is in bounds), `column_widths` has
length `num_columns`, and at every cell position `j` of every row the
indices into `column_widths` and `alignments` are in bounds and the
cell's plain length is at most `column_widths[j]`, so the
`width - plain_length` subtraction in the cell renderer never
underflows. -/
theorem c10_table_render_safety (table_node : Node) (node_table : NodeTable)
    (hwf : wellFormedTable table_node node_table.num_columns = true)
    (hal : node_table.alignments.length = node_table.num_columns) :
    (column_widths_of table_node node_table.num_columns).length = node_table.num_columns
  ∧ (∀ rw ∈ row_column_widths table_node, rw.length = node_table.num_columns)
  ∧ (∀ row ∈ table_node.children, ∀ j, j < row.children.length →
      j < (column_widths_of table_node node_table.num_columns).length
      ∧ j < node_table.alignments.length
      ∧ cellPlainLen (row.children.getD j (.mk .TableCell []))
          ≤ (column_widths_of table_node node_table.num_columns).getD j 0) := by
  refine ⟨column_widths_of_length _ _, ?_, ?_⟩
  · intro rw hrw
    rw [row_column_widths] at hrw
    rcases List.mem_map.1 hrw with ⟨row, hrow, rfl⟩
    obtain ⟨⟨b, hv⟩, hlen⟩ := wellFormedTable_row table_node node_table.num_columns hwf row hrow
    rw [hv]
    simp [hlen]
  · intro row hrow j hj
    obtain ⟨⟨b, hv⟩, hlen⟩ := wellFormedTable_row table_node node_table.num_columns hwf row hrow
    rw [hlen] at hj
    refine ⟨by rw [column_widths_of_length]; exact hj, by rw [hal]; exact hj, ?_⟩
    rw [column_widths_of_spec table_node node_table.num_columns hwf j hj]
    exact le_foldl_max_of_mem
      (fun row => cellPlainLen (row.children.getD j (.mk .TableCell [])))
      table_node.children 0 row hrow

/-- Witness for C10 at the two-row, two-column table of spec
scenario 3. -/
theorem c10_table_render_safety_witness :
    wellFormedTable (.mk (.Table ⟨2, [.None, .None]⟩)
        [.mk (.TableRow true) [.mk .TableCell [.mk (.Text "A") []],
                               .mk .TableCell [.mk (.Text "BB") []]],
         .mk (.TableRow false) [.mk .TableCell [.mk (.Text "1") []],
                                .mk .TableCell [.mk (.Text "2") []]]]) 2 = true
  ∧ ([TableAlignment.None, TableAlignment.None] : List TableAlignment).length = 2
  ∧ (column_widths_of (.mk (.Table ⟨2, [.None, .None]⟩)
        [.mk (.TableRow true) [.mk .TableCell [.mk (.Text "A") []],
                               .mk .TableCell [.mk (.Text "BB") []]],
         .mk (.TableRow false) [.mk .TableCell [.mk (.Text "1") []],
                                .mk .TableCell [.mk (.Text "2") []]]] : Node) 2).length = 2 :=
  ⟨by decide, by decide,
   (c10_table_render_safety _ ⟨2, [.None, .None]⟩ (by decide) (by decide)).1⟩

theorem stripCR_eq_self (cs : List Char) (h : cs.getLast? ≠ some '\r') :
    stripCR cs = cs := by
  rw [stripCR]
  split
  · rename_i heq
    exact absurd heq h
  · rfl

theorem rustLinesAux_no_nl : ∀ (cs acc : List Char), (∀ c ∈ acc, c ≠ '\n') →
    ∀ p ∈ rustLinesAux acc cs, ∀ c ∈ p, c ≠ '\n' := by
  intro cs
  induction cs with
  | nil =>
    intro acc hacc p hp c hc
    rw [rustLinesAux] at hp
    split at hp
    · cases hp
    · rcases List.mem_singleton.1 hp with rfl
      exact hacc c (List.mem_reverse.1 hc)
  | cons c0 rest ih =>
    intro acc hacc p hp c hc
    rw [rustLinesAux] at hp
    split at hp
    · rcases List.mem_cons.1 hp with rfl | h1
      · exact hacc c (List.mem_reverse.1 (stripCR_subset _ c hc))
      · exact ih [] (by intro x hx; cases hx) p h1 c hc
    · rename_i hc0
      exact ih (c0 :: acc)
        (by intro x hx; rcases List.mem_cons.1 hx with rfl | hx2
            · exact hc0
            · exact hacc x hx2) p hp c hc

theorem rustLines_no_nl (s : String) : ∀ l ∈ rustLines s, ∀ c ∈ l.data, c ≠ '\n' := by
  intro l hl c hc
  rw [rustLines] at hl
  rcases List.mem_map.1 hl with ⟨p, hp, rfl⟩
  exact rustLinesAux_no_nl s.data [] (by intro x hx; cases hx) p hp c hc

theorem rustLinesAux_append_no_nl :
    ∀ (xs acc rest : List Char), (∀ c ∈ xs, c ≠ '\n') →
      rustLinesAux acc (xs ++ rest) = rustLinesAux (xs.reverse ++ acc) rest := by
  intro xs
  induction xs with
  | nil => intro acc rest _; rfl
  | cons x xs ih =>
    intro acc rest h
    rw [List.cons_append, rustLinesAux, if_neg (h x (List.mem_cons_self _ _))]
    rw [ih (x :: acc) rest (fun c hc => h c (List.mem_cons_of_mem _ hc))]
    rw [List.reverse_cons, List.append_assoc]
    rfl

theorem rustLines_cons_line (x s : String) (hx : ∀ c ∈ x.data, c ≠ '\n')
    (hcr : x.data.getLast? ≠ some '\r') :
    rustLines (x ++ "\n" ++ s) = x :: rustLines s := by
  rw [rustLines, rustLines]
  have hdata : (x ++ "\n" ++ s).data = x.data ++ ('\n' :: s.data) := by
    simp [String.data_append]
  rw [hdata]
  rw [rustLinesAux_append_no_nl x.data [] ('\n' :: s.data) hx]
  rw [List.append_nil, rustLinesAux, if_pos rfl, List.reverse_reverse]
  rw [stripCR_eq_self x.data hcr]
  rw [List.map_cons]

theorem foldl_cbstep_shift :
    ∀ (ls : List String) (acc : String),
      ls.foldl (fun acc line => acc ++ "\x1b[97m\x1b[48;5;238m" ++ line ++ "\x1b[0K\x1b[0m\n") acc
        = acc ++ ls.foldl
            (fun acc line => acc ++ "\x1b[97m\x1b[48;5;238m" ++ line ++ "\x1b[0K\x1b[0m\n") ""
  | [], acc => (String.append_empty acc).symm
  | l :: ls, acc => by
    rw [List.foldl_cons, List.foldl_cons,
      foldl_cbstep_shift ls (acc ++ "\x1b[97m\x1b[48;5;238m" ++ l ++ "\x1b[0K\x1b[0m\n"),
      foldl_cbstep_shift ls ("" ++ "\x1b[97m\x1b[48;5;238m" ++ l ++ "\x1b[0K\x1b[0m\n")]
    simp [String.append_assoc, String.empty_append]

theorem code_block_lines_key :
    ∀ ls : List String, (∀ l ∈ ls, ∀ c ∈ l.data, c ≠ '\n') →
      rustLines ((ls.foldl
          (fun acc line => acc ++ "\x1b[97m\x1b[48;5;238m" ++ line ++ "\x1b[0K\x1b[0m\n") "")
        ++ "\n")
        = ls.map (fun line => "\x1b[97m\x1b[48;5;238m" ++ line ++ "\x1b[0K\x1b[0m") ++ [""]
  | [], _ => by
    rw [List.foldl_nil, String.empty_append]
    rfl
  | l :: ls, h => by
    rw [List.foldl_cons, foldl_cbstep_shift ls, String.empty_append]
    have hassoc :
        ("\x1b[97m\x1b[48;5;238m" ++ l ++ "\x1b[0K\x1b[0m\n"
            ++ ls.foldl
              (fun acc line => acc ++ "\x1b[97m\x1b[48;5;238m" ++ line ++ "\x1b[0K\x1b[0m\n") "")
          ++ "\n"
        = ("\x1b[97m\x1b[48;5;238m" ++ l ++ "\x1b[0K\x1b[0m") ++ "\n"
          ++ ((ls.foldl
              (fun acc line => acc ++ "\x1b[97m\x1b[48;5;238m" ++ line ++ "\x1b[0K\x1b[0m\n") "")
            ++ "\n") := by
      have hsplit : ("\x1b[0K\x1b[0m\n" : String) = "\x1b[0K\x1b[0m" ++ "\n" := rfl
      rw [hsplit]
      simp [String.append_assoc]
    rw [hassoc]
    rw [rustLines_cons_line ("\x1b[97m\x1b[48;5;238m" ++ l ++ "\x1b[0K\x1b[0m") _ ?hnl ?hcr]
    · rw [code_block_lines_key ls (fun x hx => h x (List.mem_cons_of_mem _ hx))]
      rfl
    case hnl =>
      intro c hc
      simp only [String.data_append, List.mem_append] at hc
      rcases hc with (hc | hc) | hc
      · fin_cases hc <;> decide
      · exact h l (List.mem_cons_self _ _) c hc
      · fin_cases hc <;> decide
    case hcr =>
      simp only [String.data_append, List.append_assoc, List.getLast?_append]
      show (some 'm' : Option Char) ≠ some '\x0d'
      decide

/-- C9 as amended: every physical line of the code block's `literal` is
emitted on its own output line, wrapped in the fixed
foreground/background highlight and terminated by clear-to-end-of-line,
and exactly one blank line follows the block; the `info` string has no
effect on the output (the source's renderer never reads it, so no
banner is produced). -/
theorem c9_amended_code_block_lines (code_block : NodeCodeBlock) :
    rustLines (code_block_node_to_text code_block)
      = (rustLines code_block.literal).map
          (fun line => "\x1b[97m\x1b[48;5;238m" ++ line ++ "\x1b[0K\x1b[0m") ++ [""]
  ∧ code_block_node_to_text code_block
      = code_block_node_to_text ⟨"", code_block.literal⟩ := by
  constructor
  · rw [code_block_node_to_text]
    exact code_block_lines_key (rustLines code_block.literal)
      (rustLines_no_nl code_block.literal)
  · rfl
